import Mathlib

/-!
Verification development for the ERMrest model/policy/query-compilation core.

The definitions below are shallow embeddings of the Python source files:

* src/ermrest/model/misc.py        (rights lattice, has_right, enforce_right,
                                    truncated_identifier, AclPredicate)
* src/ermrest/model/table.py       (Table.has_right override)
* src/ermrest/model/introspect.py  (duplicate unique-constraint detection)
* src/ermrest/url/ast/data/predicate.py (BinaryPredicate, TextsearchPredicate)

Machine integers do not occur on these paths; Python ints are modelled as Nat.
Python's three-valued access decision True/False/None is modelled as
Option Bool (some true / some false / none).  Functions that can raise are
modelled with Except or with explicit error-carrying result types.
-/

namespace Ermrest

/-- The eight symbolic access right names of misc.py.  In the source these are
the string keys of the sufficient_rights dict; they are modelled as an
inductive type because only these eight names ever occur as keys. -/
inductive Right : Type where
  | owner
  | create
  | write
  | insert
  | update
  | delete
  | select
  | enumerate
deriving DecidableEq, Repr

/-- Transcription of the module-level sufficient_rights dict of misc.py
(lines 71-80): for each right, the set of other rights whose possession is
sufficient to imply it.  Python iterates the set in unspecified order; the
only use sites are existence/intersection checks, which are order
independent, so a list is an adequate model. -/
def sufficient_rights : Right → List Right
  | .owner => []
  | .create => [.owner]
  | .write => [.owner]
  | .insert => [.owner, .write]
  | .update => [.owner, .write]
  | .delete => [.owner, .write]
  | .select => [.owner, .write, .update, .delete]
  | .enumerate => [.owner, .create, .write, .insert, .update, .delete, .select]

/-- Strictly decreasing measure on rights used only to justify termination of
the recursive has_right: every member of sufficient_rights a is a strictly
stronger right than a. -/
def rank : Right → Nat
  | .owner => 0
  | .create => 1
  | .write => 1
  | .insert => 2
  | .update => 2
  | .delete => 2
  | .select => 3
  | .enumerate => 4

theorem rank_sufficient_lt : ∀ a a2 : Right, a2 ∈ sufficient_rights a → rank a2 < rank a := by
  intro a a2 h
  cases a <;> cases a2 <;> simp_all [sufficient_rights, rank]

theorem rank_le_four : ∀ a : Right, rank a ≤ 4 := by
  intro a
  cases a <;> simp [rank]

/-- A model resource as seen by the authorization engine.

* isTable: whether the resource is a Table, whose has_right is overridden in
  table.py (lines 110-115) to gate on the containing schema's enumerate
  decision; all other resource classes use the generic has_right installed by
  the hasacls decorator of misc.py.
* acls: the resource's own static ACL entries.  The source keeps them in an
  AclDict; has_right first tests key membership, so an association list keyed
  by right models it (a right absent from the list is an unset ACL).
* dynacls: some bindings when the resource class carries the hasdynacls
  mix-in (Python hasattr(self, 'dynacls')), none otherwise.  has_right only
  reads each binding's validated types list, so a binding is modelled by
  that list.
* parent: the getparent resource (column to table, table to schema, schema to
  catalog, fkey-reference to table), none at the catalog root. -/
inductive Resource : Type where
  | mk (isTable : Bool)
       (acls : List (Right × List String))
       (dynacls : Option (List (List Right)))
       (parent : Option Resource)

def Resource.isTable : Resource → Bool
  | .mk b _ _ _ => b

def Resource.acls : Resource → List (Right × List String)
  | .mk _ a _ _ => a

def Resource.dynacls : Resource → Option (List (List Right))
  | .mk _ _ d _ => d

def Resource.parent : Resource → Option Resource
  | .mk _ _ _ p => p

/-- Python truthiness of a three-valued decision: True is truthy, False and
None are falsy (misc.py tests decisions with plain if-statements). -/
def isTruthy : Option Bool → Bool
  | some true => true
  | _ => false

theorem Resource.one_le_sizeOf (r : Resource) : 1 ≤ sizeOf r := by
  cases r
  simp
  omega

/-- Step 4 of the decision procedure (misc.py lines 665-668): the resource's
own ACL entry, when set, shares a member with the client roles
(not set(acl).isdisjoint(roles)). -/
def aclIntersects : Option (List String) → List String → Bool
  | some members, roles => members.any (fun m => roles.contains m)
  | none, _ => false

/-- Step 5 of the decision procedure (misc.py lines 670-674): the resource
carries the dynacls attribute and some binding's declared types intersect
sufficient_rights of the requested right
(not set(binding['types']).isdisjoint(sufficient_rights[aclname])). -/
def dynaclPossible : Option (List (List Right)) → Right → Bool
  | some bindings, a =>
      bindings.any (fun types => types.any (fun t => (sufficient_rights a).contains t))
  | none, _ => false

mutual

/-- Dispatch point for resource.has_right(aclname, roles).  For a Table the
source overrides has_right (table.py lines 110-115): it first requires the
containing schema's enumerate decision to be truthy, returning False
otherwise, and then delegates to the generic procedure (bound as _has_right).
Every other resource class uses the generic procedure directly.  The source
memoizes via the cache_rights decorator, which is semantically transparent
within one request and is not modelled.  A Table always has a schema (its
getparent) in the source, so the isTable-with-no-parent pattern is
unreachable; it is mapped to the generic procedure. -/
def has_right : Resource → Right → List String → Option Bool
  | .mk true acls dyn (some schema), a, roles =>
      if ¬ isTruthy (has_right schema .enumerate roles) then some false
      else has_right_generic (.mk true acls dyn (some schema)) a roles
  | .mk true acls dyn none, a, roles =>
      has_right_generic (.mk true acls dyn none) a roles
  | .mk false acls dyn par, a, roles =>
      has_right_generic (.mk false acls dyn par) a roles
termination_by r a roles => sizeOf r * 10 + rank a * 2 + 1
decreasing_by
  all_goals simp_wf
  all_goals
    first
    | (have hb := rank_le_four a
       have h2 := rank_le_four Right.enumerate
       omega)
    | (have hb := rank_sufficient_lt a a2.1 a2.2
       omega)
    | omega

/-- Generic decision procedure installed by the hasacls decorator
(misc.py lines 627-682), with the client roles passed explicitly (the
roles-is-None branch merely reads the ambient request context and adds the
wildcard role).  Steps, in source order: parent ownership, parent ACL
inheritance when the own ACL is unset, sufficient-right recursion, own ACL
intersection, dynamic-binding indeterminacy, parent indeterminacy
propagation, then static deny.  The source guards the three parent steps
with a parentres-is-not-None test; here that test is a top-level case split
on the parent field, with the parent steps dropped in the no-parent case
exactly as the source skips them. -/
def has_right_generic : Resource → Right → List String → Option Bool
  | .mk b acls dyn (some p), a, roles =>
      let acl : Option (List String) := acls.lookup a
      if isTruthy (has_right p .owner roles) then some true
      else if acl.isNone && isTruthy (has_right p a roles) then some true
      else if (sufficient_rights a).attach.any
          (fun a2 => isTruthy (has_right (.mk b acls dyn (some p)) a2.1 roles)) then some true
      else if aclIntersects acl roles then some true
      else if dynaclPossible dyn a then none
      else if (has_right p a roles).isNone then none
      else some false
  | .mk b acls dyn none, a, roles =>
      let acl : Option (List String) := acls.lookup a
      if (sufficient_rights a).attach.any
          (fun a2 => isTruthy (has_right (.mk b acls dyn none) a2.1 roles)) then some true
      else if aclIntersects acl roles then some true
      else if dynaclPossible dyn a then none
      else some false
termination_by r a roles => sizeOf r * 10 + rank a * 2
decreasing_by
  all_goals simp_wf
  all_goals
    first
    | (have hb := rank_le_four a
       have h2 := rank_le_four Right.owner
       omega)
    | (have hb := rank_sufficient_lt a a2.1 a2.2
       omega)
    | omega

end

theorem any_congr_mem {α : Type} (l : List α) (f g : α → Bool)
    (h : ∀ x ∈ l, f x = g x) : l.any f = l.any g := by
  induction l with
  | nil => rfl
  | cons x xs ih =>
    simp only [List.any_cons]
    rw [h x (List.mem_cons_self x xs), ih (fun y hy => h y (List.mem_cons_of_mem x hy))]

/-- Fuel-indexed evaluator mirroring has_right (flag true) and
has_right_generic (flag false) branch for branch.  The well-founded
definitions above do not reduce definitionally, so concrete decisions are
computed through this structurally recursive twin; hr_fuel_adequate proves
agreement whenever the fuel covers the termination measure. -/
def hr_fuel : Nat → Bool → Resource → Right → List String → Option Bool
  | 0, _, _, _, _ => none
  | n + 1, true, .mk true acls dyn (some schema), a, roles =>
      if ¬ isTruthy (hr_fuel n true schema .enumerate roles) then some false
      else hr_fuel n false (.mk true acls dyn (some schema)) a roles
  | n + 1, true, .mk true acls dyn none, a, roles =>
      hr_fuel n false (.mk true acls dyn none) a roles
  | n + 1, true, .mk false acls dyn par, a, roles =>
      hr_fuel n false (.mk false acls dyn par) a roles
  | n + 1, false, .mk b acls dyn (some p), a, roles =>
      let acl : Option (List String) := acls.lookup a
      if isTruthy (hr_fuel n true p .owner roles) then some true
      else if acl.isNone && isTruthy (hr_fuel n true p a roles) then some true
      else if (sufficient_rights a).attach.any
          (fun a2 => isTruthy (hr_fuel n true (.mk b acls dyn (some p)) a2.1 roles)) then some true
      else if aclIntersects acl roles then some true
      else if dynaclPossible dyn a then none
      else if (hr_fuel n true p a roles).isNone then none
      else some false
  | n + 1, false, .mk b acls dyn none, a, roles =>
      let acl : Option (List String) := acls.lookup a
      if (sufficient_rights a).attach.any
          (fun a2 => isTruthy (hr_fuel n true (.mk b acls dyn none) a2.1 roles)) then some true
      else if aclIntersects acl roles then some true
      else if dynaclPossible dyn a then none
      else some false

theorem hr_fuel_adequate : ∀ n : Nat,
    (∀ (r : Resource) (a : Right) (roles : List String),
       sizeOf r * 10 + rank a * 2 + 1 ≤ n → hr_fuel n true r a roles = has_right r a roles) ∧
    (∀ (r : Resource) (a : Right) (roles : List String),
       sizeOf r * 10 + rank a * 2 ≤ n → hr_fuel n false r a roles = has_right_generic r a roles) := by
  intro n
  induction n with
  | zero =>
    constructor <;> intro r a roles h <;>
      exact absurd h (by have h1 := Resource.one_le_sizeOf r; omega)
  | succ n ih =>
    obtain ⟨ihT, ihG⟩ := ih
    constructor
    · intro r a roles h
      obtain ⟨b, acls, dyn, par⟩ := r
      cases b with
      | true =>
        cases par with
        | some schema =>
          have hs : sizeOf schema + 2 ≤ sizeOf (Resource.mk true acls dyn (some schema)) := by
            simp
            omega
          have e1 : hr_fuel n true schema .enumerate roles = has_right schema .enumerate roles :=
            ihT schema .enumerate roles (by simp only [rank]; omega)
          have e2 : hr_fuel n false (.mk true acls dyn (some schema)) a roles
              = has_right_generic (.mk true acls dyn (some schema)) a roles :=
            ihG _ a roles (by omega)
          simp only [hr_fuel, has_right, e1, e2]
        | none =>
          have e2 : hr_fuel n false (.mk true acls dyn none) a roles
              = has_right_generic (.mk true acls dyn none) a roles :=
            ihG _ a roles (by omega)
          simp only [hr_fuel, has_right, e2]
      | false =>
        have e2 : hr_fuel n false (.mk false acls dyn par) a roles
            = has_right_generic (.mk false acls dyn par) a roles :=
          ihG _ a roles (by omega)
        simp only [hr_fuel, has_right, e2]
    · intro r a roles h
      obtain ⟨b, acls, dyn, par⟩ := r
      cases par with
      | some p =>
        have hs : sizeOf p + 2 ≤ sizeOf (Resource.mk b acls dyn (some p)) := by
          simp
          omega
        have e1 : hr_fuel n true p .owner roles = has_right p .owner roles :=
          ihT p .owner roles (by simp only [rank]; omega)
        have e2 : hr_fuel n true p a roles = has_right p a roles :=
          ihT p a roles (by omega)
        have e3 : ((sufficient_rights a).attach.any
              (fun a2 => isTruthy (hr_fuel n true (.mk b acls dyn (some p)) a2.1 roles)))
            = ((sufficient_rights a).attach.any
              (fun a2 => isTruthy (has_right (.mk b acls dyn (some p)) a2.1 roles))) := by
          apply any_congr_mem
          intro x _
          have hlt := rank_sufficient_lt a x.1 x.2
          rw [ihT _ x.1 roles (by omega)]
        simp only [hr_fuel, has_right_generic, e1, e2, e3]
      | none =>
        have e3 : ((sufficient_rights a).attach.any
              (fun a2 => isTruthy (hr_fuel n true (.mk b acls dyn none) a2.1 roles)))
            = ((sufficient_rights a).attach.any
              (fun a2 => isTruthy (has_right (.mk b acls dyn none) a2.1 roles))) := by
          apply any_congr_mem
          intro x _
          have hlt := rank_sufficient_lt a x.1 x.2
          rw [ihT _ x.1 roles (by omega)]
        simp only [hr_fuel, has_right_generic, e3]

/-- Entry point for computing a dispatcher decision by kernel reduction:
any fuel covering the termination measure gives the has_right value. -/
theorem has_right_eval (n : Nat) (r : Resource) (a : Right) (roles : List String)
    (h : sizeOf r * 10 + rank a * 2 + 1 ≤ n) :
    has_right r a roles = hr_fuel n true r a roles :=
  ((hr_fuel_adequate n).1 r a roles h).symm

theorem has_right_eval0 (r : Resource) (a : Right) (roles : List String) :
    has_right r a roles = hr_fuel (sizeOf r * 10 + rank a * 2 + 1) true r a roles :=
  has_right_eval _ r a roles (Nat.le_refl _)

/-- If a strictly sufficient right a2 for a holds (dispatcher view), the
generic procedure grants a: the sufficient-right loop of misc.py
(lines 660-663) returns True, unless an earlier step already returned True. -/
theorem has_right_generic_suff_true {r : Resource} {a a2 : Right} {roles : List String}
    (hmem : a2 ∈ sufficient_rights a) (ht : has_right r a2 roles = some true) :
    has_right_generic r a roles = some true := by
  obtain ⟨b, acls, dyn, par⟩ := r
  cases par with
  | some p =>
    have hany : ((sufficient_rights a).attach.any
        (fun x => isTruthy (has_right (.mk b acls dyn (some p)) x.1 roles))) = true := by
      rw [List.any_eq_true]
      refine ⟨⟨a2, hmem⟩, List.mem_attach _ _, ?_⟩
      simp [ht, isTruthy]
    rw [has_right_generic.eq_1]
    split_ifs <;> first | rfl | (exact absurd hany (by assumption))
  | none =>
    have hany : ((sufficient_rights a).attach.any
        (fun x => isTruthy (has_right (.mk b acls dyn none) x.1 roles))) = true := by
      rw [List.any_eq_true]
      refine ⟨⟨a2, hmem⟩, List.mem_attach _ _, ?_⟩
      simp [ht, isTruthy]
    rw [has_right_generic.eq_2]
    split_ifs <;> first | rfl | (exact absurd hany (by assumption))

/-- Sufficiency is monotone through the dispatcher as well: the Table
override gates on the schema enumerate decision, which does not depend on
the requested right, so a granted sufficient right forces the gate open. -/
theorem has_right_suff_mono {r : Resource} {a a2 : Right} {roles : List String}
    (hmem : a2 ∈ sufficient_rights a) (ht : has_right r a2 roles = some true) :
    has_right r a roles = some true := by
  obtain ⟨b, acls, dyn, par⟩ := r
  cases b with
  | false =>
    simp only [has_right]
    exact has_right_generic_suff_true hmem ht
  | true =>
    cases par with
    | none =>
      simp only [has_right]
      exact has_right_generic_suff_true hmem ht
    | some schema =>
      have hgt : isTruthy (has_right schema Right.enumerate roles) = true := by
        cases hgt2 : isTruthy (has_right schema Right.enumerate roles) with
        | true => rfl
        | false =>
          rw [has_right.eq_1] at ht
          rw [if_pos (by simp [hgt2])] at ht
          exact absurd ht (by simp)
      rw [has_right.eq_1, if_neg (by simp [hgt])]
      exact has_right_generic_suff_true hmem ht

/-- Policy enforcement enforce_right (misc.py lines 684-689): compute the
decision and raise Forbidden exactly when it is the identity False
(decision is False); True and None fall through.  The Forbidden message is
built from the ambient request URI in the source; it is irrelevant to the
claims and modelled by the acl name. -/
inductive ErmrestError : Type where
  | forbidden (msg : String)
deriving DecidableEq, Repr

def enforce_right (r : Resource) (a : Right) (roles : List String) : Except ErmrestError Unit :=
  let decision := has_right r a roles
  if decision = some false then .error (.forbidden "access") else .ok ()

/-- The sufficiency relation of spec section 4.5.1, exactly the pairs the
C3 claim quantifies over (owner implies all; write implies insert, update,
delete, enumerate; insert implies enumerate; update and delete imply select
and enumerate; select implies enumerate).  This definition follows the
wording of the spec, to be compared against the code's sufficient_rights. -/
def specImplies : Right → Right → Bool
  | .owner, .create | .owner, .write | .owner, .insert | .owner, .update
  | .owner, .delete | .owner, .select | .owner, .enumerate => true
  | .write, .insert | .write, .update | .write, .delete | .write, .enumerate => true
  | .insert, .enumerate => true
  | .update, .select | .update, .enumerate => true
  | .delete, .select | .delete, .enumerate => true
  | .select, .enumerate => true
  | _, _ => false

/-- C3: sufficiency monotonicity.  For every resource r, every pair of
rights a2 and a with a2 implying a under the section 4.5.1 sufficiency
relation, and every role set, has_right(r, a2, roles) = true forces
has_right(r, a, roles) = true. -/
theorem c3_sufficiency_monotonicity (r : Resource) (a2 a : Right) (roles : List String)
    (hspec : specImplies a2 a = true) (ht : has_right r a2 roles = some true) :
    has_right r a roles = some true := by
  have hmem : a2 ∈ sufficient_rights a := by
    cases a2 <;> cases a <;> simp_all [specImplies, sufficient_rights]
  exact has_right_suff_mono hmem ht

def w3Catalog : Resource := .mk false [] none none

def w3Schema : Resource := .mk false [(.enumerate, ["grp1"])] none (some w3Catalog)

def w3Table : Resource := .mk true [(.write, ["grp1"])] (some []) (some w3Schema)

theorem c3_sufficiency_monotonicity_witness :
    specImplies .write .insert = true ∧
    has_right w3Table .write ["grp1"] = some true ∧
    has_right w3Table .insert ["grp1"] = some true := by
  refine ⟨by decide, by rw [has_right_eval0]; decide, ?_⟩
  exact c3_sufficiency_monotonicity w3Table .write .insert ["grp1"] (by decide)
    (by rw [has_right_eval0]; decide)

/-- C4: ownership inheritance.  If the parent resource resolves owner as
true, the child resolves every right as true: step 1 of the generic
procedure grants immediately, and for a Table child the schema enumerate
gate is forced open because owner is sufficient for enumerate on the
parent itself. -/
theorem c4_ownership_inheritance (r p : Resource) (a : Right) (roles : List String)
    (hp : r.parent = some p) (howner : has_right p .owner roles = some true) :
    has_right r a roles = some true := by
  obtain ⟨b, acls, dyn, par⟩ := r
  simp only [Resource.parent] at hp
  subst hp
  cases b with
  | false =>
    simp only [has_right]
    rw [has_right_generic.eq_1, if_pos (by simp [howner, isTruthy])]
  | true =>
    have hen : has_right p .enumerate roles = some true :=
      has_right_suff_mono (by decide) howner
    rw [has_right.eq_1, if_neg (by simp [hen, isTruthy])]
    rw [has_right_generic.eq_1, if_pos (by simp [howner, isTruthy])]

def w4Catalog : Resource := .mk false [] none none

def w4Schema : Resource := .mk false [(.owner, ["alice"])] none (some w4Catalog)

def w4Table : Resource := .mk true [] (some []) (some w4Schema)

theorem c4_ownership_inheritance_witness :
    w4Table.parent = some w4Schema ∧
    has_right w4Schema .owner ["alice"] = some true ∧
    has_right w4Table .delete ["alice"] = some true := by
  refine ⟨rfl, by rw [has_right_eval0]; decide, ?_⟩
  exact c4_ownership_inheritance w4Table w4Schema .delete ["alice"] rfl
    (by rw [has_right_eval0]; decide)

/-- C5: enforce_right raises Forbidden exactly when the decision is the
static deny False; the permissive decisions true and none return without
raising. -/
theorem c5_enforce_right_iff_static_deny (r : Resource) (a : Right) (roles : List String) :
    ((∃ e, enforce_right r a roles = .error e) ↔ has_right r a roles = some false) ∧
    (has_right r a roles = some true ∨ has_right r a roles = none →
      enforce_right r a roles = .ok ()) := by
  constructor
  · constructor
    · rintro ⟨e, he⟩
      by_contra hc
      simp [enforce_right, hc] at he
    · intro h
      exact ⟨.forbidden "access", by simp [enforce_right, h]⟩
  · rintro (h | h) <;> simp [enforce_right, h]

/-- C10: schema visibility gates every table-level access decision.  If the
containing schema's enumerate decision is the static deny false, the Table
has_right override (table.py lines 110-115) returns false for every
requested right, before consulting the table's own ACLs or bindings. -/
theorem c10_schema_enumerate_gates_table
    (acls : List (Right × List String)) (dyn : Option (List (List Right)))
    (s : Resource) (a : Right) (roles : List String)
    (hs : has_right s .enumerate roles = some false) :
    has_right (Resource.mk true acls dyn (some s)) a roles = some false := by
  rw [has_right.eq_1, if_pos (by simp [hs, isTruthy])]

def w10Catalog : Resource := .mk false [] none none

def w10Schema : Resource := .mk false [] none (some w10Catalog)

theorem c10_schema_enumerate_gates_table_witness :
    has_right w10Schema .enumerate ["x"] = some false ∧
    has_right (Resource.mk true [(.select, ["x"])] (some [[.select], [.owner]]) (some w10Schema))
      .select ["x"] = some false := by
  refine ⟨by rw [has_right_eval0]; decide, ?_⟩
  exact c10_schema_enumerate_gates_table [(.select, ["x"])] (some [[.select], [.owner]])
    w10Schema .select ["x"] (by rw [has_right_eval0]; decide)

theorem c5_enforce_right_iff_static_deny_witness :
    (∃ e, enforce_right w10Schema .enumerate ["x"] = .error e) ∧
    enforce_right w4Schema .owner ["alice"] = .ok () := by
  constructor
  · exact (c5_enforce_right_iff_static_deny w10Schema .enumerate ["x"]).1.mpr
      (by rw [has_right_eval0]; decide)
  · exact (c5_enforce_right_iff_static_deny w4Schema .owner ["alice"]).2
      (Or.inl (by rw [has_right_eval0]; decide))

def c1Catalog : Resource := .mk false [] none none

def c1Schema : Resource := .mk false [(.enumerate, ["x"])] none (some c1Catalog)

/-- Table T of the C1 scenario: no static ACLs of its own, one dynamic ACL
binding whose declared types list is exactly the requested right select. -/
def c1Table : Resource := .mk true [] (some [[.select]]) (some c1Schema)

/-- C1: the code disagrees with the claim.  For the table above the claim
(spec rule 5 and spec scenario 3) requires the indeterminate decision none,
because the binding's types contain the requested right select itself.  The
source tests set(binding.types) against sufficient_rights[aclname]
(misc.py line 672), a set that deliberately excludes aclname itself, so the
binding typed exactly with the requested right never triggers the dynamic
branch and evaluation falls through to the static deny false. -/
theorem c1_binding_own_type_yields_static_deny :
    has_right c1Table .select ["x"] = some false ∧
    Right.select ∉ sufficient_rights .select := by
  refine ⟨by rw [has_right_eval0]; decide, by decide⟩

/-! SQL identifier quoting.  util.sql_identifier is not under src/, but
src/src/model.py carries the same quoting routine as sql_ident:
double-quote the name, doubling any embedded double quote. -/

def sql_ident (s : String) : String :=
  "\"" ++ String.mk (s.data.foldr
    (fun c acc => if c = '\"' then '\"' :: '\"' :: acc else c :: acc) []) ++ "\""

/-- BinaryPredicate.sql_where (predicate.py lines 83-99) for a validated
predicate: an array-typed left column distributes the comparison over
unnested elements, a scalar column emits the infix comparison.  The rendered
right-hand literal (right_expr.sql_literal, defined in modules outside src/)
is passed in as lit; pfx and pos are the alias prefix and the path element
position; colName is quoted through sql_ident exactly as Column.sql_name
does. -/
def binaryPredicate_sql_where (isArray : Bool) (sqlop : String) (lit : String)
    (pfx : String) (pos : Nat) (colName : String) : String :=
  if isArray then
    "(SELECT bool_or(v " ++ sqlop ++ " " ++ lit ++ ") FROM unnest(" ++
      pfx ++ "t" ++ toString pos ++ "." ++ sql_ident colName ++ ") x (v))"
  else
    pfx ++ "t" ++ toString pos ++ "." ++ sql_ident colName ++ " " ++ sqlop ++ " " ++ lit

/-- The array-equality SQL shape asserted by the C7 claim and spec scenario 5,
verbatim: note the space-free alias application x(v).  This definition
follows the wording of the spec, for comparison with the code emitter. -/
def c7_spec_array_shape (pos : Nat) (colName : String) (lit : String) : String :=
  "(SELECT bool_or(v = " ++ lit ++ ") FROM unnest(t" ++ toString pos ++ "." ++
    sql_ident colName ++ ") x(v))"

/-- C7 counterexample: at a concrete array-column equality the code's output
differs from the claimed shape (the code writes the unnest alias as
x (v), with a space). -/
theorem c7_counterexample_array_shape :
    binaryPredicate_sql_where true "=" "LIT" "" 0 "tags" ≠ c7_spec_array_shape 0 "tags" "LIT" := by
  decide

/-- C7 (amended): equality over an array column is distributed over the
elements with the alias written x (v); a scalar column gets the plain infix
comparison. -/
theorem c7_array_equality_distribution (lit pfx : String) (pos : Nat) (colName : String) :
    binaryPredicate_sql_where true "=" lit pfx pos colName =
      "(SELECT bool_or(v = " ++ lit ++ ") FROM unnest(" ++ pfx ++ "t" ++ toString pos ++ "." ++
        sql_ident colName ++ ") x (v))" ∧
    binaryPredicate_sql_where false "=" lit pfx pos colName =
      pfx ++ "t" ++ toString pos ++ "." ++ sql_ident colName ++ " = " ++ lit := by
  constructor <;> simp [binaryPredicate_sql_where, String.append_assoc]

/-! Full-text-search predicate (predicate.py lines 199-213). -/

/-- BinaryTextPredicate._sql_left_value for an ordinary column (one without
the sql_name_astext_with_talias attribute): the column reference cast to the
text type. -/
def bt_sql_left_value (pfx : String) (pos : Nat) (colName : String) : String :=
  pfx ++ "t" ++ toString pos ++ "." ++ sql_ident colName ++ "::text"

/-- The nested wrap helper of TextsearchPredicate._sql_left_value
(predicate.py lines 204-205).  Its body is a bare format expression with no
return statement, so the constructed string is discarded and the Python
function returns None; Option String models the NoneType-or-str result. -/
def ts_wrap (left : String) : Option String :=
  let _ := "to_tsvector(" ++ left ++ ")"
  none

def ts_sql_left_value (pfx : String) (pos : Nat) (colName : String) : Option String :=
  ts_wrap (bt_sql_left_value pfx pos colName)

/-- TextsearchPredicate._sql_right_value wraps the rendered text literal in
a tsquery conversion. -/
def ts_sql_right_value (lit : String) : String :=
  "to_tsquery(" ++ lit ++ ")"

/-- Python percent-formatting of the left value: str(None) renders as the
four characters None. -/
def pyFormat : Option String → String
  | some s => s
  | none => "None"

/-- BinaryTextPredicate.sql_where (predicate.py lines 138-150) as dispatched
for the ts operator: where_one applied to the single (non-set) left value,
with sqlop @@. -/
def ts_sql_where (pfx : String) (pos : Nat) (colName : String) (lit : String) : String :=
  "(" ++ pyFormat (ts_sql_left_value pfx pos colName) ++ " @@ " ++ ts_sql_right_value lit ++ ")"

/-- C8: the code disagrees with the claim.  The right-hand side is wrapped in
to_tsquery as claimed, but the left-hand side is never wrapped in
to_tsvector: wrap discards its format expression (missing return), the left
value becomes Python None, and percent-formatting renders the literal text
None into the emitted clause. -/
theorem c8_ts_lhs_never_wrapped :
    (∀ (pfx : String) (pos : Nat) (colName : String),
      ts_sql_left_value pfx pos colName = none) ∧
    ts_sql_where "" 0 "name" "QUERYLIT" = "(None @@ to_tsquery(QUERYLIT))" :=
  ⟨fun _ _ _ => rfl, rfl⟩

/-! AclPredicate.sql_where (misc.py lines 321-330). -/

/-- Error raised by the Python interpreter when an expression reads a name
bound in no enclosing scope. -/
inductive PyEvalError : Type where
  | nameError (name : String)
deriving DecidableEq, Repr

/-- The names bound at module level in misc.py: the imports of lines 17-26
and the module-level definitions.  CPython resolves a free name against the
enclosing function scopes (none here: sql_where and its module define no
name binding), then this module namespace, then the builtins (which define
no name binding either). -/
def misc_module_scope : List String :=
  ["exception", "sql_identifier", "sql_literal", "table_exists", "udecode",
   "ermpath", "_default_config", "Name", "json", "web", "hashlib", "base64",
   "frozendict", "_get_ermrest_config", "enforce_63byte_id",
   "truncated_identifier", "sufficient_rights", "AltDict", "AclDict",
   "AclBasePredicate", "AclBinding", "AclPredicate", "commentable",
   "annotatable_classes", "keying", "_create_storage_table",
   "_introspect_helper", "annotatable", "hasacls_classes", "hasacls",
   "hasdynacls_classes", "hasdynacls"]

/-- The local names of AclPredicate.sql_where when line 323 executes: the
parameters and the lname binding of line 322. -/
def aclPredicate_sql_where_scope : List String :=
  ["self", "epath", "elem", "prefix", "lname"]

def resolvesInScope (n : String) : Bool :=
  (aclPredicate_sql_where_scope ++ misc_module_scope).contains n

/-- AclPredicate.sql_where (misc.py lines 321-330).  Line 323 reads the free
name binding: the compiled binding is stored on self.binding, and binding is
bound in no enclosing scope, so CPython raises NameError before any clause
is emitted.  The then-branch spells out the clause construction the
remaining lines would perform if the name resolved to self.binding
(projection_type acl: scalar column = ANY (...), array column && ...;
otherwise the NOT NULL test); it is unreachable.  attrLits carries the
ambient client attributes already rendered as SQL literals
(sql_literal lives outside src/). -/
def aclPredicate_sql_where (projection_type : String) (isArray : Bool)
    (pfx : String) (pos : Nat) (colName : String) (attrLits : List String) :
    Except PyEvalError String :=
  let lname := pfx ++ "t" ++ toString pos ++ "." ++ sql_ident colName
  if resolvesInScope "binding" then
    if projection_type = "acl" then
      let attrs := "ARRAY[" ++ String.intercalate "," attrLits ++ "]::text[]"
      if isArray then .ok (lname ++ " && " ++ attrs)
      else .ok (lname ++ " = ANY (" ++ attrs ++ ")")
    else .ok (lname ++ " NOT NULL")
  else .error (.nameError "binding")

/-- C2: the code disagrees with the claim.  Every invocation of
AclPredicate.sql_where raises NameError for the unbound name binding
(misc.py line 323 reads binding instead of self.binding, the bug flagged in
spec section 9), so no compiled dynamic ACL clause is ever emitted. -/
theorem c2_aclpredicate_sql_where_name_error :
    (∀ (pt : String) (isArray : Bool) (pfx : String) (pos : Nat)
       (colName : String) (attrLits : List String),
      aclPredicate_sql_where pt isArray pfx pos colName attrLits =
        .error (.nameError "binding")) ∧
    resolvesInScope "binding" = false := by
  refine ⟨fun pt isArray pfx pos colName attrLits => ?_, by decide⟩
  simp [aclPredicate_sql_where, show resolvesInScope "binding" = false from by decide]

/-! Unique-constraint introspection (introspect.py lines 155-191). -/

/-- Errors the introspection pass can raise.  conflictModel stands for
exception.ConflictModel of the codebase's error taxonomy (spec section 7);
valueError is Python's builtin ValueError, the type actually raised by
_introspect_pkey; keyError is the KeyError a failed schemas lookup would
propagate. -/
inductive IntrospectErr : Type where
  | valueError (msg : String)
  | conflictModel (msg : String)
  | keyError (msg : String)
deriving DecidableEq, Repr

/-- Modelled from the spec: class Unique of src/ermrest/model/key.py is not
under src/ (only its construction sites are).  The introspector builds it
from the column set and a (schema name, constraint name) pair, and the
duplicate-constraint message prints its names attribute; the spec (section
3, Lifecycles) says duplicates surface the colliding constraint names, so
Unique is modelled as the column set plus the list of its name pairs. -/
structure Unique : Type where
  columns : List Nat
  names : List (String × String)
deriving DecidableEq, Repr

/-- Python frozenset equality of two column sets (columns are interned by
rid during introspection, so a column is identified by its rid). -/
def colsetEq (x y : List Nat) : Bool :=
  x.all (fun c => y.contains c) && y.all (fun c => x.contains c)

/-- Rendering of a Unique.names value into the percent-formatted duplicate
message (a Python list of name pairs; quoting of the repr is immaterial to
the claims and elided). -/
def renderNames (names : List (String × String)) : String :=
  "[" ++ String.intercalate ", " (names.map (fun p => "(" ++ p.1 ++ ", " ++ p.2 ++ ")")) ++ "]"

/-- One row of _ermrest.known_keys_denorm as consumed by the introspection
loop of lines 175-183 (comment and annotations are threaded into the Unique
constructor and play no role in the duplicate check). -/
structure PkeyRow : Type where
  rid : Nat
  schema_rid : Nat
  constraint_name : String
  table_rid : Nat
  column_rids : List Nat
deriving DecidableEq, Repr

/-- _introspect_pkey (introspect.py lines 155-173) for the real-key pass:
resolve the constraint's column rids in the interned column index (a
KeyError silently skips the constraint), freeze the column set, then fail
when an already-registered pkey has the same frozen column set, naming the
new constraint and the names of the registered one; otherwise register.
The pkeys accumulator is the closure variable of the same name. -/
def _introspect_pkey (columns : List (Nat × Nat)) (pkeys : List (List Nat × Unique))
    (schemaName : String) (constraint_name : String) (column_rids : List Nat) :
    Except IntrospectErr (List (List Nat × Unique)) :=
  match column_rids.mapM (fun rid => columns.lookup rid) with
  | none => .ok pkeys
  | some pk_cols =>
    let pk := Unique.mk pk_cols [(schemaName, constraint_name)]
    match (pkeys.find? (fun kv => colsetEq kv.1 pk_cols)) with
    | some kv =>
        .error (.valueError ("Duplicate constraint " ++ constraint_name ++
          " collides with " ++ renderNames kv.2.names ++ "."))
    | none => .ok (pkeys ++ [(pk_cols, pk)])

/-- The known_keys_denorm loop (introspect.py lines 175-183), written as
explicit recursion over the cursor rows: resolve the constraint's schema
name for the name pair, then run _introspect_pkey on each row in order,
threading the pkeys registry and propagating the first error. -/
def introspect_pkeys_from (columns : List (Nat × Nat)) (schemas : List (Nat × String)) :
    List (List Nat × Unique) → List PkeyRow → Except IntrospectErr (List (List Nat × Unique))
  | pkeys, [] => .ok pkeys
  | pkeys, row :: rest =>
    match schemas.lookup row.schema_rid with
    | none => .error (.keyError "schema_rid")
    | some sname =>
      match _introspect_pkey columns pkeys sname row.constraint_name row.column_rids with
      | .error e => .error e
      | .ok pkeys2 => introspect_pkeys_from columns schemas pkeys2 rest

def introspect_pkeys (columns : List (Nat × Nat)) (schemas : List (Nat × String))
    (rows : List PkeyRow) : Except IntrospectErr (List (List Nat × Unique)) :=
  introspect_pkeys_from columns schemas [] rows

def c6Columns : List (Nat × Nat) := [(1, 1), (2, 2)]

def c6Schemas : List (Nat × String) := [(0, "S")]

/-- Two distinct unique constraints with the same column set (the second
lists the columns in the other order, exercising frozenset equality). -/
def c6Rows : List PkeyRow :=
  [PkeyRow.mk 10 0 "key1" 5 [1, 2],
   PkeyRow.mk 11 0 "key2" 5 [2, 1]]

/-- C6 counterexample: on a duplicate column set the loader does fail and
does name both constraints, but the raise at introspect.py line 169 is
Python's builtin ValueError, not the ConflictModel error the claim states. -/
theorem c6_counterexample_valueerror_not_conflictmodel :
    introspect_pkeys c6Columns c6Schemas c6Rows =
      Except.error (IntrospectErr.valueError
        "Duplicate constraint key2 collides with [(S, key1)].") ∧
    ∀ msg, introspect_pkeys c6Columns c6Schemas c6Rows ≠
      Except.error (IntrospectErr.conflictModel msg) := by
  refine ⟨by rfl, ?_⟩
  intro msg h
  rw [show introspect_pkeys c6Columns c6Schemas c6Rows =
      Except.error (IntrospectErr.valueError
        "Duplicate constraint key2 collides with [(S, key1)].") from by rfl] at h
  exact absurd h (by simp)

/-- C6 (amended): when introspection encounters two distinct unique
constraints whose column sets are equal as sets, the loader fails with a
ValueError whose message names the second constraint and the name pair of
the first, rather than silently keeping one of them. -/
theorem c6_duplicate_colset_fails_naming_both
    (columns : List (Nat × Nat)) (srid : Nat) (sname n1 n2 : String)
    (rid1 rid2 trid1 trid2 : Nat) (rids1 rids2 : List Nat) (cs1 cs2 : List Nat)
    (h1 : rids1.mapM (fun rid => columns.lookup rid) = some cs1)
    (h2 : rids2.mapM (fun rid => columns.lookup rid) = some cs2)
    (heq : colsetEq cs1 cs2 = true) :
    introspect_pkeys columns [(srid, sname)]
      [PkeyRow.mk rid1 srid n1 trid1 rids1, PkeyRow.mk rid2 srid n2 trid2 rids2] =
      Except.error (IntrospectErr.valueError ("Duplicate constraint " ++ n2 ++
        " collides with " ++ renderNames [(sname, n1)] ++ ".")) := by
  have hs : List.lookup srid [(srid, sname)] = some sname := by simp [List.lookup]
  simp only [introspect_pkeys, introspect_pkeys_from, hs]
  simp only [_introspect_pkey, h1, h2]
  simp [introspect_pkeys_from, List.find?, heq]

theorem c6_duplicate_colset_fails_naming_both_witness :
    introspect_pkeys c6Columns c6Schemas c6Rows =
      Except.error (IntrospectErr.valueError
        ("Duplicate constraint key2 collides with " ++ renderNames [("S", "key1")] ++ ".")) := by
  exact c6_duplicate_colset_fails_naming_both c6Columns 0 "S" "key1" "key2"
    10 11 5 5 [1, 2] [2, 1] [1, 2] [2, 1] (by decide) (by decide) (by decide)

/-! truncated_identifier (misc.py lines 49-69).  The parts are unicode
strings encoded to UTF-8 before any length is taken, so a part is modelled
as its UTF-8 byte sequence (List Nat) and the result as the byte sequence
of the returned identifier. -/

/-- Modelled deterministic stand-in for hashlib.md5, an external library
primitive (the Python standard library is not part of this repository).
The C9 claim depends only on the digest being a deterministic pure function
of the input producing a fixed-width 16-byte digest, which this definition
preserves. -/
def md5_digest (p : List Nat) : List Nat :=
  (List.range 16).map (fun i => p.foldl (fun acc b => (acc * 31 + b + i) % 256) (i * 7 + 3))

/-- The base64 alphabet as byte values: A-Z, a-z, 0-9, plus, slash. -/
def b64_alphabet : List Nat :=
  ((List.range 26).map (fun i => 65 + i)) ++ ((List.range 26).map (fun i => 97 + i)) ++
    ((List.range 10).map (fun i => 48 + i)) ++ [43, 47]

def b64_char (n : Nat) : Nat := b64_alphabet.getD n 65

/-- base64.b64encode over byte values (61 is the padding byte, the equals
sign), modelling the Python standard library routine. -/
def b64encode : List Nat → List Nat
  | [] => []
  | [b1] => [b64_char (b1 / 4), b64_char (b1 % 4 * 16), 61, 61]
  | [b1, b2] => [b64_char (b1 / 4), b64_char (b1 % 4 * 16 + b2 / 16), b64_char (b2 % 16 * 4), 61]
  | b1 :: b2 :: b3 :: rest =>
      b64_char (b1 / 4) :: b64_char (b1 % 4 * 16 + b2 / 16) ::
        b64_char (b2 % 16 * 4 + b3 / 64) :: b64_char (b3 % 64) :: b64encode rest

/-- The nested convert helper of truncated_identifier (misc.py lines 58-64):
a part short enough is kept whole, otherwise it is replaced by the base64
rendering of its MD5 digest truncated to the per-component budget. -/
def convert (max_component_len : Nat) (p : List Nat) : List Nat :=
  if p.length ≤ max_component_len then p
  else (b64encode (md5_digest p)).take max_component_len

/-- truncated_identifier (misc.py lines 49-69): parts no longer than the
threshold are static; the remaining budget of the 63-byte identifier limit
is divided evenly among the long components (Python 2 integer division;
num_components or 1 guards the empty case).  The assert len_static < 20 on
line 54 is modelled as the none branch; the final assert len(result) <= 63
on line 67 is the C9 claim itself and is proved below rather than assumed. -/
def truncated_identifier (parts : List (List Nat)) (threshold : Nat := 4) :
    Option (List Nat) :=
  let len_static := ((parts.filter (fun p => p.length ≤ threshold)).map List.length).sum
  if len_static < 20 then
    let num_components := (parts.filter (fun p => threshold < p.length)).length
    let max_component_len := (63 - len_static) / (if num_components = 0 then 1 else num_components)
    some ((parts.map (convert max_component_len)).flatten)
  else none

theorem convert_length_le (mcl : Nat) (p : List Nat) :
    (convert mcl p).length ≤ min p.length mcl := by
  by_cases h : p.length ≤ mcl <;> simp [convert, h]
  omega

theorem sum_convert_le (threshold mcl : Nat) (parts : List (List Nat)) :
    ((parts.map (convert mcl)).map List.length).sum ≤
      ((parts.filter (fun p => p.length ≤ threshold)).map List.length).sum +
        (parts.filter (fun p => threshold < p.length)).length * mcl := by
  induction parts with
  | nil => simp
  | cons p ps ih =>
    have hc := convert_length_le mcl p
    by_cases hp : p.length ≤ threshold
    · have hp2 : ¬ threshold < p.length := by omega
      simp [List.filter_cons, hp, hp2]
      simp only [List.map_map] at ih
      omega
    · have hp2 : threshold < p.length := by omega
      have hp3 : ¬ p.length ≤ threshold := by omega
      simp [List.filter_cons, hp2, hp3, add_one_mul]
      simp only [List.map_map] at ih
      omega

/-- Arithmetic core of the 63-byte bound: static parts contribute at most
the static length (each is either kept whole or shrunk by hashing), long
parts contribute at most the per-component budget each, and the budget is
an integer division of the remaining space, so the grand total stays within
63 whenever the static length passes the source's assert. -/
theorem flatten_convert_le (parts : List (List Nat)) (threshold ls num mcl : Nat)
    (hls : ls = ((parts.filter (fun p => p.length ≤ threshold)).map List.length).sum)
    (hnum : num = (parts.filter (fun p => threshold < p.length)).length)
    (hmcl : mcl = (63 - ls) / (if num = 0 then 1 else num))
    (h20 : ls < 20) :
    ((parts.map (convert mcl)).flatten).length ≤ 63 := by
  have hflat : ((parts.map (convert mcl)).flatten).length
      = ((parts.map (convert mcl)).map List.length).sum := by
    simp [List.length_flatten]
  have hsum := sum_convert_le threshold mcl parts
  rw [← hls, ← hnum] at hsum
  rw [hflat]
  by_cases hn : num = 0
  · rw [hn] at hsum
    omega
  · have hdiv : num * mcl ≤ 63 - ls := by
      rw [hmcl, if_neg hn, Nat.mul_comm]
      exact Nat.div_mul_le_self _ _
    omega

/-- C9: whenever truncated_identifier returns (the only non-returning path
is the source's assert on the static length), the returned identifier is at
most 63 bytes; and the function is deterministic, equal input lists giving
equal outputs. -/
theorem c9_truncated_identifier_bounded_deterministic
    (parts : List (List Nat)) (l : List Nat)
    (h : truncated_identifier parts = some l) :
    l.length ≤ 63 ∧
      ∀ parts2, parts2 = parts → truncated_identifier parts2 = truncated_identifier parts := by
  refine ⟨?_, fun parts2 h2 => by rw [h2]⟩
  simp only [truncated_identifier] at h
  split at h
  · rename_i hs
    injection h with h
    subst h
    exact flatten_convert_le parts 4 _ _ _ rfl rfl rfl hs
  · exact absurd h (by simp)

def c9Parts : List (List Nat) := [[102, 107, 101, 121], List.replicate 70 97]

theorem c9_truncated_identifier_bounded_deterministic_witness :
    ∃ l, truncated_identifier c9Parts = some l ∧ l.length ≤ 63 := by
  cases hv : truncated_identifier c9Parts with
  | none => exact absurd hv (by decide)
  | some l =>
    exact ⟨l, rfl, (c9_truncated_identifier_bounded_deterministic c9Parts l hv).1⟩

end Ermrest
